import Mathlib

/-!
Shallow embedding of the `sshpass-rs` pty supervisor and its collaborators.

Byte strings are modelled as `List Nat` (each element a byte value).
`src/matcher.rs` is embedded as `Matcher` with `Matcher.feed` / `Matcher.reset`;
`src/pty.rs`'s child-out pump step and final exit-code computation as
`stepChunk` / `finalExitCode`; `src/password.rs` as `resolve_password` over an
explicit environment map and inlined file/fd/stdin contents.
-/

namespace Sshpass

/-- Byte values of an ASCII string literal, as used by `str::as_bytes` in the
source (all patterns in the source are ASCII, so code points equal bytes). -/
def asciiBytes (s : String) : List Nat :=
  s.data.map Char.toNat

/-- `src/matcher.rs`: `pub struct Matcher { pattern: Vec<u8>, state: usize }`. -/
structure Matcher where
  pattern : List Nat
  state : Nat
deriving DecidableEq

/-- One iteration of the loop body in `Matcher::feed` (`src/matcher.rs`):
`if state < len && pattern[state] == byte { state += 1 } else { state = 0;
if !pattern.is_empty() && pattern[0] == byte { state = 1 } }`. -/
def stepState (p : List Nat) (s : Nat) (b : Nat) : Nat :=
  if s < p.length ∧ p[s]? = some b then s + 1
  else if 0 < p.length ∧ p[0]? = some b then 1
  else 0

/-- The loop of `Matcher::feed`: advance over the buffer, returning `true`
immediately (leaving the rest of the buffer unconsumed) when the state reaches
the pattern length. Returns the flag and the final state. -/
def feedGo (p : List Nat) (s : Nat) : List Nat → Bool × Nat
  | [] => (false, s)
  | b :: rest =>
    if stepState p s b = p.length then (true, stepState p s b)
    else feedGo p (stepState p s b) rest

/-- `Matcher::new` (`src/matcher.rs`). -/
def Matcher.new (pattern : List Nat) : Matcher :=
  ⟨pattern, 0⟩

/-- `Matcher::feed` (`src/matcher.rs`): early-returns `false` on the empty
pattern, otherwise runs the scanning loop. -/
def Matcher.feed (m : Matcher) (data : List Nat) : Bool × Matcher :=
  if m.pattern.isEmpty then (false, m)
  else
    let r := feedGo m.pattern m.state data
    (r.1, ⟨m.pattern, r.2⟩)

/-- `Matcher::reset` (`src/matcher.rs`): `self.state = 0`. -/
def Matcher.reset (m : Matcher) : Matcher :=
  ⟨m.pattern, 0⟩

/-- Feeding a list of chunks in order to a matcher, as a caller of
`Matcher::feed` would; the flag records whether any feed call returned true. -/
def runChunks (m : Matcher) : List (List Nat) → Bool × Matcher
  | [] => (false, m)
  | c :: cs =>
    ((m.feed c).1 || (runChunks (m.feed c).2 cs).1, (runChunks (m.feed c).2 cs).2)

/-- `s` is the length of the longest prefix of `p` that is a suffix of `w`
(the spec's Matcher invariant, §3 of the specification). -/
def IsLongestPS (p w : List Nat) (s : Nat) : Prop :=
  s ≤ p.length ∧ p.take s <:+ w ∧ ∀ l, l ≤ p.length → p.take l <:+ w → l ≤ s

instance (p w : List Nat) (s : Nat) : Decidable (IsLongestPS p w s) := by
  unfold IsLongestPS
  infer_instance

/-- `src/pty.rs`: `const RETURN_INCORRECT_PASSWORD: i32 = 5`. -/
def RETURN_INCORRECT_PASSWORD : Int := 5

/-- `src/pty.rs`: `const RETURN_HOST_KEY_UNKNOWN: i32 = 6`. -/
def RETURN_HOST_KEY_UNKNOWN : Int := 6

/-- `src/pty.rs`: `const RETURN_HOST_KEY_CHANGED: i32 = 7`. -/
def RETURN_HOST_KEY_CHANGED : Int := 7

/-- The host-key-unknown pattern hard-coded in `pty::run` (`src/pty.rs`):
`Matcher::new("The authenticity of host ")`. -/
def HK_PATTERN : List Nat := asciiBytes "The authenticity of host "

/-- The host-key-changed pattern hard-coded in `pty::run` (`src/pty.rs`):
`Matcher::new("differs from the key for the IP address")`. -/
def HKC_PATTERN : List Nat := asciiBytes "differs from the key for the IP address"

/-- The mutable state of the child-out pump thread in `pty::run`
(`src/pty.rs`): the three matchers, the `password_sent` and
`suppress_until_newline` flags, plus the shared resources it can touch —
the atomic exit-code slot, the pty writer/master slots (`ptyOpen`, closed by
`close_pty`), whether the loop has been broken out of (`terminated`), and the
bytes written to the pty so far (`ptyWrites`). -/
structure PumpState where
  pwMatcher : Matcher
  hkMatcher : Matcher
  hkcMatcher : Matcher
  passwordSent : Bool
  suppressUntilNewline : Bool
  exitCode : Int
  ptyOpen : Bool
  terminated : Bool
  ptyWrites : List Nat
deriving DecidableEq

/-- Initial pump state as set up at the top of the reader thread in
`pty::run` (`src/pty.rs`): fresh matchers, both flags false, exit-code slot 0,
pty open. -/
def initPumpState (prompt : List Nat) : PumpState :=
  { pwMatcher := Matcher.new prompt
    hkMatcher := Matcher.new HK_PATTERN
    hkcMatcher := Matcher.new HKC_PATTERN
    passwordSent := false
    suppressUntilNewline := false
    exitCode := 0
    ptyOpen := true
    terminated := false
    ptyWrites := [] }

/-- `data.iter().position(|&b| b == b'\n')` from the suppression step of the
child-out pump (`src/pty.rs`). -/
def positionNewline : List Nat → Option Nat
  | [] => none
  | b :: rest => if b = 10 then some 0 else (positionNewline rest).map (· + 1)

/-- The suppression step of the child-out pump (`src/pty.rs`): given the
`suppress_until_newline` flag and the chunk, returns the bytes written to
standard output and the new flag. If the flag is set and the chunk contains a
newline, the flag is cleared and only the bytes after the first newline are
written; if set and no newline, nothing is written; if clear, the chunk is
written in full. -/
def suppressStep (suppress : Bool) (D : List Nat) : List Nat × Bool :=
  if suppress = true then
    match positionNewline D with
    | some pos => (D.drop (pos + 1), false)
    | none => ([], true)
  else (D, false)

/-- The host-key-changed check and suppression step of the chunk handler in
the child-out pump (`src/pty.rs`): `if hkc_matcher.feed(data) { ... break; }`
followed by the suppression step. -/
def stepHkc (st : PumpState) (D : List Nat) : PumpState × List Nat :=
  if (st.hkcMatcher.feed D).1 = true then
    ({ st with hkcMatcher := (st.hkcMatcher.feed D).2,
               exitCode := RETURN_HOST_KEY_CHANGED, ptyOpen := false,
               terminated := true }, [])
  else
    ({ st with hkcMatcher := (st.hkcMatcher.feed D).2,
               suppressUntilNewline := (suppressStep st.suppressUntilNewline D).2 },
     (suppressStep st.suppressUntilNewline D).1)

/-- The host-key-unknown check of the chunk handler in the child-out pump
(`src/pty.rs`): `if hk_matcher.feed(data) { ... break; }`, then on to the
host-key-changed check. -/
def stepHk (st : PumpState) (D : List Nat) : PumpState × List Nat :=
  if (st.hkMatcher.feed D).1 = true then
    ({ st with hkMatcher := (st.hkMatcher.feed D).2,
               exitCode := RETURN_HOST_KEY_UNKNOWN, ptyOpen := false,
               terminated := true }, [])
  else stepHkc { st with hkMatcher := (st.hkMatcher.feed D).2 } D

/-- Processing of one chunk `data` by the child-out pump in `pty::run`
(`src/pty.rs`, loop body): the password-prompt check (send the password and
start suppression on the first fire; store exit code 5, close the pty and
break on a second fire), then the host-key checks and the suppression step.
Returns the state afterwards and the bytes emitted to standard output. -/
def stepChunk (password : List Nat) (st : PumpState) (D : List Nat) :
    PumpState × List Nat :=
  if (st.pwMatcher.feed D).1 = true then
    if st.passwordSent = true then
      ({ st with pwMatcher := (st.pwMatcher.feed D).2,
                 exitCode := RETURN_INCORRECT_PASSWORD, ptyOpen := false,
                 terminated := true }, [])
    else
      stepHk { st with
                 pwMatcher := Matcher.reset (st.pwMatcher.feed D).2,
                 passwordSent := true, suppressUntilNewline := true,
                 ptyWrites := st.ptyWrites ++
                   (if st.ptyOpen = true then password ++ [10] else []) } D
  else stepHk { st with pwMatcher := (st.pwMatcher.feed D).2 } D

/-- The conversion of the child's status in `pty::run` (`src/pty.rs`):
`status.exit_code().try_into().unwrap_or(255)` — `exit_code()` is a `u32`,
and `try_into::<i32>()` succeeds exactly when the value fits in `i32`. -/
def childExitToI32 (c : Nat) : Int :=
  if c ≤ 2147483647 then (c : Int) else 255

/-- The final exit-code computation at the bottom of `pty::run`
(`src/pty.rs`): `let sshpass_code = exit_code.load(..); if sshpass_code != 0
{ return Ok(sshpass_code); } match child_status { Some(status) =>
Ok(status.exit_code().try_into().unwrap_or(255)), None => Ok(255) }`. -/
def finalExitCode (sshpassCode : Int) (childStatus : Option Nat) : Int :=
  if sshpassCode ≠ 0 then sshpassCode
  else
    match childStatus with
    | some c => childExitToI32 c
    | none => 255

/-- `src/password.rs`: `pub enum PasswordError` (the `io::Error` payloads are
dropped, only the discriminating data is kept). -/
inductive PasswordError where
  | FileOpen (path : String)
  | EnvNotSet (var : String)
  | StdinRead
  | FdRead (fd : Int)
deriving DecidableEq

/-- `src/password.rs`: `pub enum PasswordSource`. The file system, the
standard input and the inherited descriptor are shallowly embedded by
carrying the available content inline (password bytes as `List Nat`). -/
inductive PasswordSource where
  | Stdin (input : List Nat)
  | File (content : List Nat)
  | Fd (content : List Nat)
  | Direct (pw : List Nat)
  | Env (var : String)

/-- `first_line` (`src/password.rs`): `s.lines().next().unwrap_or("")`.
Rust's `str::lines` splits on `\n` and, when a line was terminated by `\n`,
also strips one `\r` immediately before it; with no `\n` the whole string is
the (only) line. -/
def first_line (s : List Nat) : List Nat :=
  match positionNewline s with
  | none => s
  | some pos =>
    if (s.take pos).getLast? = some 13 then (s.take pos).dropLast
    else s.take pos

/-- `BufRead::read_line` as used by the stdin and fd branches of
`resolve_password` (`src/password.rs`): reads up to and including the first
newline (or everything when there is none). -/
def readLine (input : List Nat) : List Nat :=
  match positionNewline input with
  | none => input
  | some pos => input.take (pos + 1)

/-- `resolve_password` (`src/password.rs`), with the process environment
passed and returned explicitly as a map from variable names to values.
The `Env` branch reads the variable and unsets it on success; the `File`
branch takes the first line of the content; the `Stdin`/`Fd` branches read
one line and take its first line. -/
def resolve_password (env : String → Option (List Nat)) :
    PasswordSource → Except PasswordError (List Nat) × (String → Option (List Nat))
  | .Direct pw => (.ok pw, env)
  | .Env var =>
    match env var with
    | some pw => (.ok pw, fun v => if v = var then none else env v)
    | none => (.error (.EnvNotSet var), env)
  | .File content => (.ok (first_line content), env)
  | .Stdin input => (.ok (first_line (readLine input)), env)
  | .Fd content => (.ok (first_line (readLine content)), env)

/-- A concrete environment used by witnesses. -/
def wEnv : String → Option (List Nat) :=
  fun v => if v = "SSHPASS" then some [1] else if v = "OTHER" then some [2] else none

/-- A concrete pump state used by witnesses: prompt pattern [7], password
already sent. -/
def wPumpStateSent : PumpState :=
  { pwMatcher := Matcher.new [7]
    hkMatcher := Matcher.new [8]
    hkcMatcher := Matcher.new [9]
    passwordSent := true
    suppressUntilNewline := false
    exitCode := 0
    ptyOpen := true
    terminated := false
    ptyWrites := [] }

theorem concat_suffix_concat (u w : List Nat) (x b : Nat) :
    u ++ [x] <:+ w ++ [b] ↔ x = b ∧ u <:+ w := by
  constructor
  · rintro ⟨t, ht⟩
    rw [← List.append_assoc] at ht
    obtain ⟨h1, h2⟩ := List.append_inj' ht rfl
    simp only [List.cons.injEq, and_true] at h2
    exact ⟨h2, t, h1⟩
  · rintro ⟨rfl, t, ht⟩
    exact ⟨t, by rw [← List.append_assoc, ht]⟩

theorem take_suffix_concat (p w : List Nat) (b : Nat) (l : Nat)
    (h1 : 1 ≤ l) (h2 : l ≤ p.length) :
    p.take l <:+ w ++ [b] ↔ p[l - 1]? = some b ∧ p.take (l - 1) <:+ w := by
  have hlt : l - 1 < p.length := by omega
  obtain ⟨x, hx⟩ : ∃ x, p[l - 1]? = some x :=
    ⟨p[l - 1], List.getElem?_eq_getElem hlt⟩
  have hl : l - 1 + 1 = l := by omega
  have htake : p.take l = p.take (l - 1) ++ [x] := by
    rw [← hl, List.take_succ, hx]
    rfl
  rw [htake, concat_suffix_concat]
  constructor
  · rintro ⟨rfl, h⟩
    exact ⟨hx, h⟩
  · rintro ⟨hb, h⟩
    rw [hx] at hb
    exact ⟨(Option.some.injEq _ _ ▸ hb : x = b), h⟩

theorem psUnique (p : List Nat)
    (hnso : ∀ i, i < p.length → 0 < i → p[i]? ≠ p[0]?)
    (w : List Nat) (k s : Nat) (hk : 1 ≤ k) (hks : k ≤ s) (hsl : s ≤ p.length)
    (h1 : p.take k <:+ w) (h2 : p.take s <:+ w) : k = s := by
  by_contra hne
  have hks' : k < s := by omega
  have hsub : p.take k <:+ p.take s := by
    rcases List.suffix_or_suffix_of_suffix h1 h2 with h | h
    · exact h
    · have := h.length_le
      simp only [List.length_take] at this
      omega
  obtain ⟨t, ht⟩ := hsub
  have htlen : t.length = s - k := by
    have := congrArg List.length ht
    simp only [List.length_append, List.length_take] at this
    omega
  have echain : p[s - k]? = p[0]? := by
    have e3 : (p.take s)[s - k]? = p[s - k]? := List.getElem?_take_of_lt (by omega)
    have e1 : (t ++ p.take k)[s - k]? = (p.take k)[0]? := by
      rw [← htlen, List.getElem?_append_right (Nat.le_refl _)]
      simp
    have e2 : (p.take k)[0]? = p[0]? := List.getElem?_take_of_lt (by omega)
    rw [← e3, ← ht, e1, e2]
  exact hnso (s - k) (by omega) (by omega) echain

theorem isLongestPS_nil (p : List Nat) (hne : p ≠ []) : IsLongestPS p [] 0 := by
  refine ⟨Nat.zero_le _, by simp, ?_⟩
  intro l _ hsufl
  rw [List.suffix_nil] at hsufl
  rcases List.take_eq_nil_iff.mp hsufl with h | h
  · omega
  · exact absurd h hne

theorem stepPreserves (p : List Nat) (hne : p ≠ [])
    (hnso : ∀ i, i < p.length → 0 < i → p[i]? ≠ p[0]?)
    (w : List Nat) (s : Nat) (hs : s < p.length)
    (hinv : IsLongestPS p w s) (b : Nat) :
    IsLongestPS p (w ++ [b]) (stepState p s b) := by
  obtain ⟨hsle, hsuf, hmax⟩ := hinv
  have hlp : 0 < p.length := List.length_pos.mpr hne
  unfold stepState
  split
  · next h =>
    obtain ⟨-, hget⟩ := h
    refine ⟨hs, ?_, ?_⟩
    · have htake : p.take (s + 1) = p.take s ++ [b] := by
        rw [List.take_succ, hget]
        rfl
      rw [htake]
      obtain ⟨t, ht⟩ := hsuf
      exact ⟨t, by rw [← List.append_assoc, ht]⟩
    · intro l hl hsufl
      rcases Nat.eq_zero_or_pos l with h0 | hpos
      · omega
      · obtain ⟨-, hrest⟩ := (take_suffix_concat p w b l hpos hl).mp hsufl
        have := hmax (l - 1) (by omega) hrest
        omega
  · next h1 =>
    split
    · next h2 =>
      obtain ⟨-, hget0⟩ := h2
      refine ⟨by omega, ?_, ?_⟩
      · have htake : p.take 1 = [b] := by
          rw [show (1 : Nat) = 0 + 1 from rfl, List.take_succ, hget0]
          rfl
        rw [htake]
        exact ⟨w, rfl⟩
      · intro l hl hsufl
        by_contra hgt
        push_neg at hgt
        have hpos : 1 ≤ l := by omega
        obtain ⟨hb, hrest⟩ := (take_suffix_concat p w b l hpos hl).mp hsufl
        have hl1s : l - 1 ≤ s := hmax (l - 1) (by omega) hrest
        rcases Nat.lt_or_ge (l - 1) s with hlt | hge
        · have := psUnique p hnso w (l - 1) s (by omega) (by omega) (by omega) hrest hsuf
          omega
        · have hls : l - 1 = s := by omega
          rw [hls] at hb
          exact h1 ⟨hs, hb⟩
    · next h2 =>
      refine ⟨Nat.zero_le _, by simp, ?_⟩
      intro l hl hsufl
      by_contra hgt
      push_neg at hgt
      have hpos : 1 ≤ l := by omega
      obtain ⟨hb, hrest⟩ := (take_suffix_concat p w b l hpos hl).mp hsufl
      have hl1s : l - 1 ≤ s := hmax (l - 1) (by omega) hrest
      rcases Nat.eq_zero_or_pos (l - 1) with hz | hpos1
      · rw [hz] at hb
        exact h2 ⟨hlp, hb⟩
      · rcases Nat.lt_or_ge (l - 1) s with hlt | hge
        · have := psUnique p hnso w (l - 1) s hpos1 (by omega) (by omega) hrest hsuf
          omega
        · have hls : l - 1 = s := by omega
          rw [hls] at hb
          exact h1 ⟨hs, hb⟩

theorem feedGo_invariant (p : List Nat) (hne : p ≠ [])
    (hnso : ∀ i, i < p.length → 0 < i → p[i]? ≠ p[0]?) :
    ∀ (w v : List Nat) (s : Nat), IsLongestPS p v s → s < p.length →
      ((feedGo p s w).1 = true → p <:+: v ++ w) ∧
      ((feedGo p s w).1 = false →
        IsLongestPS p (v ++ w) (feedGo p s w).2 ∧ (feedGo p s w).2 < p.length ∧
        ∀ u, u <+: w → ¬ p <:+ v ++ u) := by
  intro w
  induction w with
  | nil =>
    intro v s hinv hs
    refine ⟨by simp [feedGo], ?_⟩
    intro _
    refine ⟨by simpa [feedGo] using hinv, by simpa [feedGo] using hs, ?_⟩
    intro u hu hsuf
    rw [List.prefix_nil] at hu
    subst hu
    rw [List.append_nil] at hsuf
    have := hinv.2.2 p.length (Nat.le_refl _) (by simpa [List.take_length] using hsuf)
    omega
  | cons b rest ih =>
    intro v s hinv hs
    have hstep := stepPreserves p hne hnso v s hs hinv b
    by_cases hhit : stepState p s b = p.length
    · constructor
      · intro _
        have hsufp : p <:+ v ++ [b] := by
          have := hstep.2.1
          rwa [hhit, List.take_length] at this
        obtain ⟨t, ht⟩ := hsufp
        refine ⟨t, rest, ?_⟩
        rw [ht, List.append_assoc]
        rfl
      · intro hfalse
        simp [feedGo, hhit] at hfalse
    · have hlt : stepState p s b < p.length := by
        have := hstep.1
        omega
      have hrec := ih (v ++ [b]) (stepState p s b) hstep hlt
      have hfg : feedGo p s (b :: rest) = feedGo p (stepState p s b) rest := by
        simp [feedGo, hhit]
      constructor
      · intro htrue
        rw [hfg] at htrue
        have := hrec.1 htrue
        rwa [← List.append_cons] at this
      · intro hfalse
        rw [hfg] at hfalse
        obtain ⟨ha, hb', hc⟩ := hrec.2 hfalse
        rw [hfg]
        refine ⟨by rwa [← List.append_cons] at ha, hb', ?_⟩
        intro u hu hsuf
        rcases u with _ | ⟨c, u'⟩
        · rw [List.append_nil] at hsuf
          have := hinv.2.2 p.length (Nat.le_refl _) (by simpa [List.take_length] using hsuf)
          omega
        · rw [List.cons_prefix_cons] at hu
          obtain ⟨hcb, hu'⟩ := hu
          subst hcb
          rw [List.append_cons] at hsuf
          exact hc u' hu' hsuf

theorem feedGo_false_append (p : List Nat) (s : Nat) (w w' : List Nat)
    (h : (feedGo p s w).1 = false) :
    feedGo p s (w ++ w') = feedGo p (feedGo p s w).2 w' := by
  induction w generalizing s with
  | nil => simp [feedGo]
  | cons b rest ih =>
    by_cases hhit : stepState p s b = p.length
    · simp [feedGo, hhit] at h
    · rw [List.cons_append]
      simp only [feedGo, if_neg hhit] at h ⊢
      exact ih _ h

theorem feedGo_true_append (p : List Nat) (s : Nat) (w w' : List Nat)
    (h : (feedGo p s w).1 = true) :
    (feedGo p s (w ++ w')).1 = true := by
  induction w generalizing s with
  | nil => simp [feedGo] at h
  | cons b rest ih =>
    by_cases hhit : stepState p s b = p.length
    · simp [feedGo, hhit]
    · rw [List.cons_append]
      simp only [feedGo, if_neg hhit] at h ⊢
      exact ih _ h

theorem feed_mk (p : List Nat) (hne : p ≠ []) (s : Nat) (c : List Nat) :
    (Matcher.mk p s).feed c = ((feedGo p s c).1, ⟨p, (feedGo p s c).2⟩) := by
  simp [Matcher.feed, hne]

theorem runChunks_flag (p : List Nat) (hne : p ≠ []) (s : Nat) (cs : List (List Nat)) :
    (runChunks ⟨p, s⟩ cs).1 = (feedGo p s cs.flatten).1 := by
  induction cs generalizing s with
  | nil => simp [runChunks, feedGo]
  | cons c cs ih =>
    rw [List.flatten_cons]
    by_cases hc : (feedGo p s c).1 = true
    · rw [feedGo_true_append _ _ _ _ hc]
      simp [runChunks, feed_mk p hne, hc]
    · have hcf : (feedGo p s c).1 = false := by simpa using hc
      rw [feedGo_false_append p s c cs.flatten hcf]
      simp [runChunks, feed_mk p hne, hcf, ih]

theorem runChunks_state (p : List Nat) (hne : p ≠ []) (s : Nat) (cs : List (List Nat))
    (h : (runChunks ⟨p, s⟩ cs).1 = false) :
    (runChunks ⟨p, s⟩ cs).2 = ⟨p, (feedGo p s cs.flatten).2⟩ := by
  induction cs generalizing s with
  | nil => simp [runChunks, feedGo]
  | cons c cs ih =>
    simp only [runChunks, feed_mk p hne, Bool.or_eq_false_iff] at h
    obtain ⟨hcf, hrest⟩ := h
    rw [List.flatten_cons, feedGo_false_append p s c cs.flatten hcf]
    simp only [runChunks, feed_mk p hne]
    exact ih _ hrest

theorem stepState_length_eq (p : List Nat) (b : Nat) :
    stepState p p.length b = stepState p 0 b := by
  unfold stepState
  have h1 : ¬ (p.length < p.length ∧ p[p.length]? = some b) := by
    rintro ⟨h, -⟩
    omega
  rw [if_neg h1]
  by_cases h : 0 < p.length ∧ p[0]? = some b
  · rw [if_pos h, if_pos h]
  · rw [if_neg h, if_neg h]

theorem feedGo_length_eq (p : List Nat) (data : List Nat) :
    (feedGo p p.length data).1 = (feedGo p 0 data).1 := by
  cases data with
  | nil => rfl
  | cons b rest => simp only [feedGo, stepState_length_eq]

/-- C1: for a pattern that is not self-overlapping on its first character
(its first byte occurs nowhere else in it), feeding any chunking of an input
to a fresh `Matcher` returns `true` on some `feed` call iff the pattern occurs
as a contiguous substring of the concatenated input. -/
theorem matcher_chunked_iff_substring (p : List Nat) (chunks : List (List Nat))
    (hne : p ≠ [])
    (hnso : ∀ i, i < p.length → 0 < i → p[i]? ≠ p[0]?) :
    ((runChunks (Matcher.new p) chunks).1 = true) ↔ p <:+: chunks.flatten := by
  have hlp : 0 < p.length := List.length_pos.mpr hne
  have hbase := isLongestPS_nil p hne
  have hmain := feedGo_invariant p hne hnso chunks.flatten [] 0 hbase hlp
  have hflag := runChunks_flag p hne 0 chunks
  show ((runChunks ⟨p, 0⟩ chunks).1 = true) ↔ p <:+: chunks.flatten
  rw [hflag]
  constructor
  · intro h
    exact hmain.1 h
  · intro hocc
    by_contra h
    have hf : (feedGo p 0 chunks.flatten).1 = false := by simpa using h
    obtain ⟨-, -, hnp⟩ := hmain.2 hf
    obtain ⟨t1, t2, hocc'⟩ := hocc
    exact hnp (t1 ++ p) ⟨t2, hocc'⟩ ⟨t1, rfl⟩

/-- Witness for C1 at the pattern [1, 2] split across the chunks [1], [2]. -/
theorem matcher_chunked_iff_substring_witness :
    ((runChunks (Matcher.new [1, 2]) [[1], [2]]).1 = true) ↔
      ([1, 2] : List Nat) <:+: [[1], [2]].flatten :=
  matcher_chunked_iff_substring [1, 2] [[1], [2]] (by decide) (by decide)

/-- C6 (counterexample): for the self-overlapping pattern "aab" the state
after feeding "aaa" is 1, but the longest prefix of the pattern that is a
suffix of the fed bytes is "aa", of length 2; the claimed invariant fails
for arbitrary patterns. -/
theorem matcher_state_not_longest :
    (runChunks (Matcher.new [97, 97, 98]) [[97, 97, 97]]).1 = false ∧
    (runChunks (Matcher.new [97, 97, 98]) [[97, 97, 97]]).2.state = 1 ∧
    ¬ IsLongestPS [97, 97, 98] [97, 97, 97] 1 := by
  decide

/-- C6 amended: for patterns that are not self-overlapping on their first
character, the matcher state after any sequence of feeds that produced no
match equals the length of the longest prefix of the pattern that is a suffix
of the bytes fed (and in particular stays within 0..|P|); `new` and `reset`
establish the invariant for the empty stream. -/
theorem matcher_state_invariant (p : List Nat) (hne : p ≠ [])
    (hnso : ∀ i, i < p.length → 0 < i → p[i]? ≠ p[0]?) :
    IsLongestPS p [] (Matcher.new p).state ∧
    (∀ m : Matcher, IsLongestPS p [] (Matcher.reset m).state) ∧
    ∀ chunks : List (List Nat), (runChunks (Matcher.new p) chunks).1 = false →
      IsLongestPS p chunks.flatten (runChunks (Matcher.new p) chunks).2.state := by
  have hlp : 0 < p.length := List.length_pos.mpr hne
  refine ⟨isLongestPS_nil p hne, fun _ => isLongestPS_nil p hne, ?_⟩
  intro chunks h
  have h0 : (runChunks ⟨p, 0⟩ chunks).1 = false := h
  have hst := runChunks_state p hne 0 chunks h0
  have hflag := runChunks_flag p hne 0 chunks
  have hfeed_false : (feedGo p 0 chunks.flatten).1 = false := by
    rw [← hflag]
    exact h0
  have hmain := (feedGo_invariant p hne hnso chunks.flatten [] 0
    (isLongestPS_nil p hne) hlp).2 hfeed_false
  show IsLongestPS p chunks.flatten (runChunks ⟨p, 0⟩ chunks).2.state
  rw [hst]
  exact hmain.1

/-- Witness for the amended C6 at the pattern [1, 2] and the matchless
chunk stream [1], [3]. -/
theorem matcher_state_invariant_witness :
    IsLongestPS [1, 2] [] (Matcher.new [1, 2]).state ∧
    IsLongestPS [1, 2] [[1], [3]].flatten
      (runChunks (Matcher.new [1, 2]) [[1], [3]]).2.state :=
  ⟨(matcher_state_invariant [1, 2] (by decide) (by decide)).1,
   (matcher_state_invariant [1, 2] (by decide) (by decide)).2.2 [[1], [3]] (by decide)⟩

/-- C7 (counterexample): after `feed` has returned true, a subsequent `feed`
that sees the pattern again returns true again even though `reset` was never
called; the claim that all later feeds return false until `reset` fails. -/
theorem feed_true_twice_without_reset :
    ((Matcher.new [1, 2]).feed [1, 2]).1 = true ∧
    (((Matcher.new [1, 2]).feed [1, 2]).2.feed [1, 2]).1 = true := by
  decide

/-- C7 amended: a `feed` call returns true as soon as the pattern completes
and leaves the state at |P|; onward from that state the scanner behaves on any
further data exactly like a freshly constructed matcher, so a later occurrence
of the pattern is reported again even without `reset`. -/
theorem feed_after_match_restarts (p data : List Nat) (hne : p ≠ []) :
    ((Matcher.mk p p.length).feed data).1 = ((Matcher.new p).feed data).1 := by
  show ((Matcher.mk p p.length).feed data).1 = ((Matcher.mk p 0).feed data).1
  rw [feed_mk p hne, feed_mk p hne]
  exact feedGo_length_eq p data

/-- Witness for the amended C7 at the pattern [1, 2]. -/
theorem feed_after_match_restarts_witness :
    ([1, 2] : List Nat) ≠ [] ∧
    ((Matcher.mk [1, 2] 2).feed [1, 2]).1 = ((Matcher.new [1, 2]).feed [1, 2]).1 :=
  ⟨by decide, feed_after_match_restarts [1, 2] [1, 2] (by decide)⟩

-- Sanity checks mirroring the unit tests in `src/matcher.rs`.
example : ((Matcher.new (asciiBytes "assword:")).feed (asciiBytes "Password:")).1 = true := by
  decide

example :
    ((Matcher.new (asciiBytes "abc")).feed (asciiBytes "ababc")).1 = true := by
  decide

example :
    ((Matcher.new (asciiBytes "abcd")).feed (asciiBytes "abcx")).1 = false := by
  decide

example : ((Matcher.new []).feed (asciiBytes "anything")).1 = false := by
  decide

example :
    (runChunks (Matcher.new (asciiBytes "assword:"))
      [asciiBytes "Pass", asciiBytes "word:"]).1 = true := by
  decide

theorem positionNewline_eq_none (D : List Nat) (h : 10 ∉ D) :
    positionNewline D = none := by
  induction D with
  | nil => rfl
  | cons b rest ih =>
    rw [List.mem_cons, not_or] at h
    have hb : ¬ b = 10 := fun h' => h.1 h'.symm
    rw [show positionNewline (b :: rest) =
          if b = 10 then some 0 else (positionNewline rest).map (· + 1) from rfl,
        if_neg hb, ih h.2]
    rfl

theorem positionNewline_append (pre post : List Nat) (h : 10 ∉ pre) :
    positionNewline (pre ++ 10 :: post) = some pre.length := by
  induction pre with
  | nil =>
    show positionNewline (10 :: post) = some 0
    rw [show positionNewline (10 :: post) =
          if (10 : Nat) = 10 then some 0 else (positionNewline post).map (· + 1) from rfl,
        if_pos rfl]
  | cons b rest ih =>
    rw [List.mem_cons, not_or] at h
    have hb : ¬ b = 10 := fun h' => h.1 h'.symm
    show positionNewline (b :: (rest ++ 10 :: post)) = some (rest.length + 1)
    rw [show positionNewline (b :: (rest ++ 10 :: post)) =
          if b = 10 then some 0 else (positionNewline (rest ++ 10 :: post)).map (· + 1)
          from rfl,
        if_neg hb, ih h.2]
    rfl

theorem drop_pre_newline (pre post : List Nat) :
    (pre ++ 10 :: post).drop (pre.length + 1) = post := by
  have hl : (pre ++ [10]).length = pre.length + 1 := by simp
  rw [List.append_cons, ← hl, List.drop_left]

theorem mem_newline_decomp (D : List Nat) (h : 10 ∈ D) :
    ∃ pre post, D = pre ++ 10 :: post ∧ 10 ∉ pre := by
  induction D with
  | nil => cases h
  | cons b rest ih =>
    by_cases hb : b = 10
    · exact ⟨[], rest, by simp [hb], by simp⟩
    · have hr : 10 ∈ rest := by
        rcases List.mem_cons.mp h with h1 | h1
        · exact absurd h1.symm hb
        · exact h1
      obtain ⟨pre, post, hd, hnp⟩ := ih hr
      refine ⟨b :: pre, post, by rw [hd]; rfl, ?_⟩
      rw [List.mem_cons, not_or]
      exact ⟨fun h' => hb h'.symm, hnp⟩

theorem suppressStep_found (D : List Nat) (pre post : List Nat)
    (hd : D = pre ++ 10 :: post) (hnp : 10 ∉ pre) :
    suppressStep true D = (post, false) := by
  subst hd
  simp [suppressStep, positionNewline_append pre post hnp, drop_pre_newline]

theorem suppressStep_not_found (D : List Nat) (h : 10 ∉ D) :
    suppressStep true D = ([], true) := by
  simp [suppressStep, positionNewline_eq_none D h]

theorem suppressStep_clear (D : List Nat) : suppressStep false D = (D, false) := by
  simp [suppressStep]

theorem stepHk_fired (st : PumpState) (D : List Nat)
    (h : (st.hkMatcher.feed D).1 = true) :
    (stepHk st D).1.exitCode = 6 ∧ (stepHk st D).1.ptyOpen = false ∧
    (stepHk st D).1.terminated = true := by
  simp [stepHk, h, RETURN_HOST_KEY_UNKNOWN]

theorem stepHkc_fired (st : PumpState) (D : List Nat)
    (h : (st.hkcMatcher.feed D).1 = true) :
    (stepHkc st D).1.exitCode = 7 ∧ (stepHkc st D).1.ptyOpen = false ∧
    (stepHkc st D).1.terminated = true := by
  simp [stepHkc, h, RETURN_HOST_KEY_CHANGED]

theorem stepHk_not_fired (st : PumpState) (D : List Nat)
    (h : (st.hkMatcher.feed D).1 = false) :
    stepHk st D = stepHkc { st with hkMatcher := (st.hkMatcher.feed D).2 } D := by
  simp [stepHk, h]

/-- C2: each terminal condition of the child-out pump stores its
distinguished code, closes the pty and terminates the pump: a prompt-matcher
fire with `password_sent` set stores 5; a host-key-unknown fire stores 6; a
host-key-changed fire stores 7. The two host-key matchers are built from the
fixed patterns `"The authenticity of host "` and
`"differs from the key for the IP address"`. -/
theorem pump_terminal_codes :
    (∀ (password : List Nat) (st : PumpState) (D : List Nat),
      (st.pwMatcher.feed D).1 = true → st.passwordSent = true →
      (stepChunk password st D).1.exitCode = 5 ∧
      (stepChunk password st D).1.ptyOpen = false ∧
      (stepChunk password st D).1.terminated = true) ∧
    (∀ (password : List Nat) (st : PumpState) (D : List Nat),
      ¬ ((st.pwMatcher.feed D).1 = true ∧ st.passwordSent = true) →
      (st.hkMatcher.feed D).1 = true →
      (stepChunk password st D).1.exitCode = 6 ∧
      (stepChunk password st D).1.ptyOpen = false ∧
      (stepChunk password st D).1.terminated = true) ∧
    (∀ (password : List Nat) (st : PumpState) (D : List Nat),
      ¬ ((st.pwMatcher.feed D).1 = true ∧ st.passwordSent = true) →
      (st.hkMatcher.feed D).1 = false →
      (st.hkcMatcher.feed D).1 = true →
      (stepChunk password st D).1.exitCode = 7 ∧
      (stepChunk password st D).1.ptyOpen = false ∧
      (stepChunk password st D).1.terminated = true) ∧
    (∀ prompt : List Nat,
      (initPumpState prompt).hkMatcher.pattern =
        asciiBytes "The authenticity of host " ∧
      (initPumpState prompt).hkcMatcher.pattern =
        asciiBytes "differs from the key for the IP address") := by
  refine ⟨?_, ?_, ?_, fun _ => ⟨rfl, rfl⟩⟩
  · intro password st D hfeed hsent
    simp [stepChunk, hfeed, hsent, RETURN_INCORRECT_PASSWORD]
  · intro password st D hnot hk
    by_cases hfeed : (st.pwMatcher.feed D).1 = true
    · have hsf : st.passwordSent = false := by
        rcases Bool.eq_false_or_eq_true st.passwordSent with h | h
        · exact absurd ⟨hfeed, h⟩ hnot
        · exact h
      rw [stepChunk, if_pos hfeed, if_neg (by simp [hsf])]
      exact stepHk_fired _ D (by simpa using hk)
    · rw [stepChunk, if_neg hfeed]
      exact stepHk_fired _ D (by simpa using hk)
  · intro password st D hnot hkf hkc
    have hred : ∀ st' : PumpState, st'.hkMatcher = st.hkMatcher →
        st'.hkcMatcher = st.hkcMatcher →
        (stepHk st' D).1.exitCode = 7 ∧ (stepHk st' D).1.ptyOpen = false ∧
        (stepHk st' D).1.terminated = true := by
      intro st' h1 h2
      rw [stepHk_not_fired st' D (by rw [h1]; exact hkf)]
      exact stepHkc_fired _ D (by simpa [h2] using hkc)
    by_cases hfeed : (st.pwMatcher.feed D).1 = true
    · have hsf : st.passwordSent = false := by
        rcases Bool.eq_false_or_eq_true st.passwordSent with h | h
        · exact absurd ⟨hfeed, h⟩ hnot
        · exact h
      rw [stepChunk, if_pos hfeed, if_neg (by simp [hsf])]
      exact hred _ rfl rfl
    · rw [stepChunk, if_neg hfeed]
      exact hred _ rfl rfl

/-- Witness for C2: a prompt fire with the password already sent stores 5,
closes the pty and terminates. -/
theorem pump_terminal_codes_witness :
    (wPumpStateSent.pwMatcher.feed [7]).1 = true ∧
    wPumpStateSent.passwordSent = true ∧
    (stepChunk [] wPumpStateSent [7]).1.exitCode = 5 ∧
    (stepChunk [] wPumpStateSent [7]).1.ptyOpen = false ∧
    (stepChunk [] wPumpStateSent [7]).1.terminated = true :=
  ⟨by decide, rfl, pump_terminal_codes.1 [] wPumpStateSent [7] (by decide) rfl⟩

/-- C3: once a distinguished code (5, 6, or 7) has been stored in the
exit-code slot, `pty::run` returns it regardless of the child's status. -/
theorem exit_code_dominance (code : Int) (childStatus : Option Nat)
    (h : code = 5 ∨ code = 6 ∨ code = 7) :
    finalExitCode code childStatus = code := by
  have hne : code ≠ 0 := by rcases h with h | h | h <;> simp [h]
  simp [finalExitCode, hne]

/-- Witness for C3 at each distinguished code against various child
statuses. -/
theorem exit_code_dominance_witness :
    finalExitCode 5 (some 0) = 5 ∧ finalExitCode 6 none = 6 ∧
    finalExitCode 7 (some 42) = 7 :=
  ⟨exit_code_dominance 5 (some 0) (Or.inl rfl),
   exit_code_dominance 6 none (Or.inr (Or.inl rfl)),
   exit_code_dominance 7 (some 42) (Or.inr (Or.inr rfl))⟩

/-- C5 (counterexample): with no distinguished code set and a child exit
status of 300, `pty::run` returns 300 — not a value clamped to 0–255. -/
theorem final_exit_code_not_clamped :
    finalExitCode 0 (some 300) = 300 ∧ ¬ finalExitCode 0 (some 300) ≤ 255 := by
  decide

/-- C5 amended: with no distinguished code set, `pty::run` returns the
child's exit code unchanged whenever it fits in a signed 32-bit integer
(values above 255 pass through unclamped), and returns 255 when the status
value exceeds `i32::MAX` or the status is unavailable. -/
theorem final_exit_code_from_child (c : Nat) :
    (c ≤ 2147483647 → finalExitCode 0 (some c) = (c : Int)) ∧
    (2147483647 < c → finalExitCode 0 (some c) = 255) ∧
    finalExitCode 0 none = 255 := by
  refine ⟨?_, ?_, by simp [finalExitCode]⟩
  · intro h
    simp [finalExitCode, childExitToI32, h]
  · intro h
    have hn : ¬ c ≤ 2147483647 := by omega
    simp [finalExitCode, childExitToI32, hn]

/-- Witness for the amended C5 at a small and a too-large child status. -/
theorem final_exit_code_from_child_witness :
    finalExitCode 0 (some 42) = (42 : Int) ∧
    finalExitCode 0 (some 3000000000) = 255 :=
  ⟨(final_exit_code_from_child 42).1 (by decide),
   (final_exit_code_from_child 3000000000).2.1 (by decide)⟩

theorem stepHkc_nonterminal (st : PumpState) (D : List Nat)
    (hterm : (stepHkc st D).1.terminated = false) :
    (stepHkc st D).2 = (suppressStep st.suppressUntilNewline D).1 ∧
    (stepHkc st D).1.suppressUntilNewline =
      (suppressStep st.suppressUntilNewline D).2 := by
  by_cases hkc : (st.hkcMatcher.feed D).1 = true
  · simp [stepHkc, hkc] at hterm
  · simp [stepHkc, hkc]

theorem stepHk_nonterminal (st : PumpState) (D : List Nat)
    (hterm : (stepHk st D).1.terminated = false) :
    (stepHk st D).2 = (suppressStep st.suppressUntilNewline D).1 ∧
    (stepHk st D).1.suppressUntilNewline =
      (suppressStep st.suppressUntilNewline D).2 := by
  by_cases hk : (st.hkMatcher.feed D).1 = true
  · simp [stepHk, hk] at hterm
  · rw [stepHk_not_fired st D (by simpa using hk)] at hterm ⊢
    have h2 := stepHkc_nonterminal _ D hterm
    simpa using h2

theorem stepChunk_nonterminal (password : List Nat) (st : PumpState) (D : List Nat)
    (hterm : (stepChunk password st D).1.terminated = false) :
    (stepChunk password st D).2 =
      (suppressStep (((st.pwMatcher.feed D).1 && !st.passwordSent)
        || st.suppressUntilNewline) D).1 ∧
    (stepChunk password st D).1.suppressUntilNewline =
      (suppressStep (((st.pwMatcher.feed D).1 && !st.passwordSent)
        || st.suppressUntilNewline) D).2 := by
  by_cases hfeed : (st.pwMatcher.feed D).1 = true
  · by_cases hsent : st.passwordSent = true
    · simp [stepChunk, hfeed, hsent] at hterm
    · have hsf : st.passwordSent = false := by simpa using hsent
      rw [stepChunk, if_pos hfeed, if_neg (by simp [hsf])] at hterm ⊢
      have h2 := stepHk_nonterminal _ D hterm
      simpa [hfeed, hsf] using h2
  · have hff : (st.pwMatcher.feed D).1 = false := by simpa using hfeed
    rw [stepChunk, if_neg hfeed] at hterm ⊢
    have h2 := stepHk_nonterminal _ D hterm
    simpa [hff] using h2

/-- C4: for a chunk D processed by the child-out pump without hitting a
terminal condition, the suppression step does exactly what the spec says:
with the suppress-until-newline flag in force at the suppression scan (the
chunk-start flag, or set because the prompt just fired on this chunk) and a
newline in D, the flag is cleared and exactly the bytes of D after the first
newline are emitted; with the flag in force and no newline, nothing is
emitted and the flag stays set; with the flag clear, D is emitted in full. -/
theorem pump_suppression (password : List Nat) (st : PumpState) (D : List Nat)
    (hterm : (stepChunk password st D).1.terminated = false) :
    ((((st.pwMatcher.feed D).1 && !st.passwordSent) || st.suppressUntilNewline) = true →
      (10 ∈ D →
        (stepChunk password st D).1.suppressUntilNewline = false ∧
        ∃ pre post, D = pre ++ 10 :: post ∧ 10 ∉ pre ∧
          (stepChunk password st D).2 = post) ∧
      (10 ∉ D →
        (stepChunk password st D).1.suppressUntilNewline = true ∧
        (stepChunk password st D).2 = [])) ∧
    ((((st.pwMatcher.feed D).1 && !st.passwordSent) || st.suppressUntilNewline) = false →
      (stepChunk password st D).2 = D ∧
      (stepChunk password st D).1.suppressUntilNewline = false) := by
  obtain ⟨hemit, hflag⟩ := stepChunk_nonterminal password st D hterm
  constructor
  · intro heff
    rw [heff] at hemit hflag
    constructor
    · intro hmem
      obtain ⟨pre, post, hd, hnp⟩ := mem_newline_decomp D hmem
      rw [suppressStep_found D pre post hd hnp] at hemit hflag
      exact ⟨hflag, pre, post, hd, hnp, hemit⟩
    · intro hnm
      rw [suppressStep_not_found D hnm] at hemit hflag
      exact ⟨hflag, hemit⟩
  · intro heff
    rw [heff] at hemit hflag
    rw [suppressStep_clear D] at hemit hflag
    exact ⟨hemit, hflag⟩

/-- Witness for C4: a non-matching chunk with the flag clear passes through
in full. -/
theorem pump_suppression_witness :
    (stepChunk [] (initPumpState [5]) [65]).1.terminated = false ∧
    (stepChunk [] (initPumpState [5]) [65]).2 = [65] ∧
    (stepChunk [] (initPumpState [5]) [65]).1.suppressUntilNewline = false :=
  ⟨by decide,
   (pump_suppression [] (initPumpState [5]) [65] (by decide)).2 (by decide)⟩

theorem first_line_no_newline (content : List Nat) (h : 10 ∉ content) :
    first_line content = content := by
  simp [first_line, positionNewline_eq_none content h]

theorem first_line_newline (pre post : List Nat) (h : 10 ∉ pre) :
    first_line (pre ++ 10 :: post) =
      (if pre.getLast? = some 13 then pre.dropLast else pre) := by
  simp only [first_line, positionNewline_append pre post h]
  rw [List.take_left' rfl]

theorem first_line_readLine (content : List Nat) :
    first_line (readLine content) = first_line content := by
  by_cases h : 10 ∈ content
  · obtain ⟨pre, post, hd, hnp⟩ := mem_newline_decomp content h
    subst hd
    have htake : (pre ++ 10 :: post).take (pre.length + 1) = pre ++ [10] := by
      rw [List.append_cons]
      exact List.take_left' (by simp)
    rw [show readLine (pre ++ 10 :: post) =
          (pre ++ 10 :: post).take (pre.length + 1) by
        simp [readLine, positionNewline_append pre post hnp],
      htake, first_line_newline pre post hnp,
      show pre ++ [10] = pre ++ 10 :: ([] : List Nat) from rfl,
      first_line_newline pre [] hnp]
  · rw [show readLine content = content by
      simp [readLine, positionNewline_eq_none content h]]

/-- C8 (counterexample): for the file content "a\r\n" (bytes 97 13 10),
`resolve_password` returns "a" (bytes 97), not the bytes up to the first
newline (97 13): the carriage return before the newline is stripped. -/
theorem first_line_strips_cr :
    (resolve_password (fun _ => none) (PasswordSource.File [97, 13, 10])).1 =
      Except.ok [97] ∧
    List.takeWhile (fun b => b != 10) [97, 13, 10] = [97, 13] ∧
    ([97] : List Nat) ≠ [97, 13] :=
  ⟨rfl, by decide, by decide⟩

/-- C8 amended: for every file (and fd) content, `resolve_password` returns
the bytes before the first newline except that a single carriage return
immediately preceding that newline is also removed; nothing else is trimmed
(spaces and interior carriage returns survive), and without a newline the
whole content is returned. The fd source agrees with the file source. -/
theorem resolve_file_first_line (env : String → Option (List Nat))
    (content : List Nat) :
    (10 ∉ content →
      (resolve_password env (PasswordSource.File content)).1 = Except.ok content) ∧
    (∀ pre post, content = pre ++ 10 :: post → 10 ∉ pre →
      (resolve_password env (PasswordSource.File content)).1 =
        Except.ok (if pre.getLast? = some 13 then pre.dropLast else pre)) ∧
    (resolve_password env (PasswordSource.Fd content)).1 =
      (resolve_password env (PasswordSource.File content)).1 := by
  refine ⟨?_, ?_, ?_⟩
  · intro h
    show Except.ok (first_line content) = Except.ok content
    rw [first_line_no_newline content h]
  · intro pre post hd hnp
    subst hd
    show Except.ok (first_line (pre ++ 10 :: post)) = _
    rw [first_line_newline pre post hnp]
  · show Except.ok (first_line (readLine content)) = Except.ok (first_line content)
    rw [first_line_readLine content]

/-- Witness for the amended C8: a newline-free file is returned in full; a
file with a newline is cut at it. -/
theorem resolve_file_first_line_witness :
    (resolve_password (fun _ => none) (PasswordSource.File [97, 98])).1 =
      Except.ok [97, 98] ∧
    (resolve_password (fun _ => none) (PasswordSource.File [99, 10, 100])).1 =
      Except.ok [99] :=
  ⟨(resolve_file_first_line (fun _ => none) [97, 98]).1 (by decide),
   by
     have h := (resolve_file_first_line (fun _ => none) [99, 10, 100]).2.1
       [99] [100] rfl (by decide)
     simpa using h⟩

/-- C9: resolving an `Env` source returns the variable's value and unsets
exactly that variable when it is set; when it is unset the result is the
`EnvNotSet` error and the environment is unchanged. -/
theorem resolve_env_spec (env : String → Option (List Nat)) (var : String) :
    (∀ pw, env var = some pw →
      (resolve_password env (PasswordSource.Env var)).1 = Except.ok pw ∧
      (resolve_password env (PasswordSource.Env var)).2 var = none ∧
      ∀ v, v ≠ var → (resolve_password env (PasswordSource.Env var)).2 v = env v) ∧
    (env var = none →
      (resolve_password env (PasswordSource.Env var)).1 =
        Except.error (PasswordError.EnvNotSet var) ∧
      (resolve_password env (PasswordSource.Env var)).2 = env) := by
  constructor
  · intro pw h
    refine ⟨?_, ?_, ?_⟩
    · simp [resolve_password, h]
    · simp [resolve_password, h]
    · intro v hv
      simp [resolve_password, h, hv]
  · intro h
    refine ⟨?_, ?_⟩
    · simp [resolve_password, h]
    · simp [resolve_password, h]

/-- Witness for C9 on a concrete environment: the set variable is read and
removed, an unrelated variable survives, and a missing variable errors. -/
theorem resolve_env_spec_witness :
    (resolve_password wEnv (PasswordSource.Env "SSHPASS")).1 = Except.ok [1] ∧
    (resolve_password wEnv (PasswordSource.Env "SSHPASS")).2 "SSHPASS" = none ∧
    (resolve_password wEnv (PasswordSource.Env "SSHPASS")).2 "OTHER" = some [2] ∧
    (resolve_password wEnv (PasswordSource.Env "MISSING")).1 =
      Except.error (PasswordError.EnvNotSet "MISSING") :=
  ⟨((resolve_env_spec wEnv "SSHPASS").1 [1] (by decide)).1,
   ((resolve_env_spec wEnv "SSHPASS").1 [1] (by decide)).2.1,
   (((resolve_env_spec wEnv "SSHPASS").1 [1] (by decide)).2.2 "OTHER"
     (by decide)).trans (by decide),
   ((resolve_env_spec wEnv "MISSING").2 (by decide)).1⟩

/-- C10: a direct (`-p`) password is returned verbatim and never fails — in
particular it is not cut at a newline — and the environment is untouched. -/
theorem resolve_direct_verbatim (env : String → Option (List Nat)) (pw : List Nat) :
    (resolve_password env (PasswordSource.Direct pw)).1 = Except.ok pw ∧
    (resolve_password env (PasswordSource.Direct pw)).2 = env :=
  ⟨rfl, rfl⟩

end Sshpass
